import Mathlib

/-!
# Verification of the `mbext-database` in-memory collection engine

Shallow embedding of `src/src/index.ts`: a document store over an ordered
id→document mapping (a JS `Map`), with per-field validators, condition-based
querying with multi-field stable sort and limit, and full-snapshot persistence
against a host blob store.

Modelling conventions:
* JS `Map<string, T>` is an insertion-ordered association list
  `List (String × Doc)`; `Map.set` replaces in place for a present key and
  appends otherwise, `Map.delete` removes the key.
* Documents are insertion-ordered JS objects over scalar values; we model the
  scalar universe with integers, strings and `undefined` (absent field reads).
* The host JSON codec (`JSON.stringify` / `JSON.parse`) is out of scope per the
  spec (§1, §6); snapshots are modelled at the decoded level, i.e. the blob
  store holds the entry list itself, and an unparsable blob is a distinguished
  `corrupt` state.
* `Math.random`-driven nibble draws are modelled by an explicit nibble stream
  `Nat → Fin 16`; the retry loop of `generateId` gets explicit fuel and returns
  `none` when the fuel runs out (the source would keep looping).
* Success of the host `setDynamicProperty` write is an oracle
  `saveOk : List (String × Doc) → Bool` of the snapshot being written.
-/

namespace MbextDB

/-- Scalar values stored in document fields: JS numbers (restricted to
integers), strings, and `undefined` for absent fields. -/
inductive Value where
  | vUndefined
  | vInt (n : Int)
  | vStr (s : String)
  deriving DecidableEq, Repr

/-- A document: an insertion-ordered JS object, field name → value. -/
abbrev Doc := List (String × Value)

/-- Reading `data[field]` on a JS object: first binding, `undefined` if absent. -/
def docGet (d : Doc) (f : String) : Value :=
  match d.find? (fun p => p.1 == f) with
  | some p => p.2
  | none => .vUndefined

/-- Field names of a document, in insertion order (`Object.keys`). -/
def docKeys (d : Doc) : List String := d.map Prod.fst

/-- JS object spread `{...a, ...b}`: `a`'s fields in order with `b`'s
overrides, then `b`'s new fields in `b`'s order. -/
def mergeDoc (a b : Doc) : Doc :=
  (a.map fun p => (p.1, match b.find? (fun q => q.1 == p.1) with
    | some q => q.2
    | none => p.2))
  ++ b.filter (fun q => !(a.map Prod.fst).contains q.1)

/-- JS `String(value)` on our scalar universe. -/
def jsToString : Value → String
  | .vUndefined => "undefined"
  | .vInt n => toString n
  | .vStr s => s

/-- JS whitespace for `ToNumber` trimming (ASCII fragment: space, tab,
line feed, carriage return). -/
def isJsSpace (c : Char) : Bool :=
  c.toNat = 32 || c.toNat = 9 || c.toNat = 10 || c.toNat = 13

/-- A digit sequence read as a natural number; `none` when empty or a
non-digit appears. -/
def digitsToNat : List Char → Option Nat
  | [] => none
  | cs => cs.foldl
      (fun acc c => match acc with
        | none => none
        | some n => if c.isDigit then some (n * 10 + (c.toNat - '0'.toNat)) else none)
      (some 0)

/-- JS `ToNumber` on a string, restricted to optionally-signed integer
literals: trim whitespace, empty is `0`, otherwise parse sign and digits;
anything else is `NaN` (`none`). -/
def strToNumber (s : String) : Option Int :=
  let t := (s.data.dropWhile isJsSpace).reverse.dropWhile isJsSpace |>.reverse
  match t with
  | [] => some 0
  | '-' :: cs => (digitsToNat cs).map (fun n => -(n : Int))
  | '+' :: cs => (digitsToNat cs).map (fun n => (n : Int))
  | cs => (digitsToNat cs).map (fun n => (n : Int))

/-- JS `ToNumber` on our scalar universe; `none` is `NaN`. -/
def jsToNumber : Value → Option Int
  | .vUndefined => none
  | .vInt n => some n
  | .vStr s => strToNumber s

/-- JS strict equality `===` on our scalar universe: same type and equal. -/
def strictEq (a b : Value) : Bool := a == b

/-- Lexicographic `<` on character lists by code point (JS compares strings
by code unit, which agrees on our material). -/
def charsLt : List Char → List Char → Bool
  | [], [] => false
  | [], _ :: _ => true
  | _ :: _, [] => false
  | c :: cs, d :: ds => c.toNat < d.toNat || (c == d && charsLt cs ds)

/-- JS `s < t` on strings. -/
def strLt (s t : String) : Bool := charsLt s.data t.data

/-- JS abstract relational comparison `a < b`: lexicographic when both are
strings, otherwise numeric after `ToNumber`; `none` when a `NaN` is involved. -/
def jsLess (a b : Value) : Option Bool :=
  match a, b with
  | .vStr s, .vStr t => some (strLt s t)
  | _, _ =>
    match jsToNumber a, jsToNumber b with
    | some x, some y => some (decide (x < y))
    | _, _ => none

/-- Does the character list `l` start with `p`? (JS `String.prototype` test on
the underlying code points.) -/
def charsStart : List Char → List Char → Bool
  | _, [] => true
  | [], _ :: _ => false
  | c :: cs, p :: ps => c == p && charsStart cs ps

/-- Does the character list `l` contain `p` as a contiguous run? -/
def charsInclude : List Char → List Char → Bool
  | l, p => charsStart l p ||
      match l with
      | [] => false
      | _ :: cs => charsInclude cs p

/-- JS `s.includes(t)`. -/
def strIncludes (s t : String) : Bool := charsInclude s.data t.data

/-- JS `s.startsWith(t)`. -/
def strStarts (s t : String) : Bool := charsStart s.data t.data

/-- JS `s.endsWith(t)`. -/
def strEnds (s t : String) : Bool := charsStart s.data.reverse t.data.reverse

/-- `toLowerCase` on one character (ASCII range, which covers our material). -/
def charLower (c : Char) : Char :=
  if 'A'.toNat ≤ c.toNat && c.toNat ≤ 'Z'.toNat then Char.ofNat (c.toNat + 32) else c

/-- JS `s.toLowerCase()`. -/
def strLower (s : String) : String := String.mk (s.data.map charLower)

/-- The nine filter operators of `FilterOperator`. -/
inductive FilterOperator where
  | eq | ne | gt | lt | ge | le | contains | startsWith | endsWith
  deriving DecidableEq, Repr

/-- A `FilterCondition<T>`: field, operator, literal value. -/
structure FilterCondition where
  field : String
  op : FilterOperator
  value : Value
  deriving DecidableEq, Repr

/-- Embeds `evaluateCondition` of `src/src/index.ts`.  The relational
operators follow JS semantics: `x > y` is `lessThan(y,x) = true`,
`x >= y` is `lessThan(x,y) = false` (`NaN` makes all four false); the
substring operators lower-case the `String(_)` images of both operands. -/
def evaluateCondition (data : Doc) (condition : FilterCondition) : Bool :=
  let value := docGet data condition.field
  let conditionValue := condition.value
  match condition.op with
  | .eq => strictEq value conditionValue
  | .ne => !strictEq value conditionValue
  | .gt => jsLess conditionValue value == some true
  | .lt => jsLess value conditionValue == some true
  | .ge => jsLess value conditionValue == some false
  | .le => jsLess conditionValue value == some false
  | .contains =>
      strIncludes (strLower (jsToString value)) (strLower (jsToString conditionValue))
  | .startsWith =>
      strStarts (strLower (jsToString value)) (strLower (jsToString conditionValue))
  | .endsWith =>
      strEnds (strLower (jsToString value)) (strLower (jsToString conditionValue))

/-- Per-field validators (`CollectionValidator<T>`): the registered entries of
the validator object, in insertion order. -/
abbrev ValidatorMap := List (String × (Value → Bool))

/-- Embeds `validate`: every registered predicate accepts `data[key]`.
(The source's `undefined`-validator guard never fires for present entries.) -/
def validate (V : ValidatorMap) (data : Doc) : Bool :=
  V.all fun p => p.2 (docGet data p.1)

/-- Sort directions (`SortDirection`). -/
inductive SortDirection where
  | asc | desc
  deriving DecidableEq, Repr

/-- A `SortOptions<T>` object: `Object.entries(sort)`, field → direction in
insertion order. -/
abbrev SortOptions := List (String × SortDirection)

/-- The sort comparator of `query`: iterate the sort fields in declared order,
`continue` past fields whose values are strictly equal (`===`), and at the
first unequal field return `aVal < bVal ? -1 : 1`, negated for `desc`. -/
def cmpDocs (sortEntries : SortOptions) (a b : Doc) : Int :=
  match sortEntries with
  | [] => 0
  | (field, direction) :: rest =>
    let aVal := docGet a field
    let bVal := docGet b field
    if strictEq aVal bVal then cmpDocs rest a b
    else
      let comparison : Int := if jsLess aVal bVal == some true then -1 else 1
      match direction with
      | .asc => comparison
      | .desc => -comparison

/-- Stable insertion into a list sorted by an integer comparator: `x` is
placed before the first element it does not compare strictly greater than,
so equally-comparing elements keep their original relative order. -/
def insertCmp {α : Type} (cmp : α → α → Int) (x : α) : List α → List α
  | [] => [x]
  | y :: ys => if cmp x y ≤ 0 then x :: y :: ys else y :: insertCmp cmp x ys

/-- Stable sort by an integer comparator.  `Array.prototype.sort` is required
to be stable (ES2019), so the JS sort is modelled by a stable insertion sort
driven by the same comparator. -/
def sortCmp {α : Type} (cmp : α → α → Int) : List α → List α
  | [] => []
  | x :: xs => insertCmp cmp x (sortCmp cmp xs)

/-- One collection entry: identifier paired with its document. -/
abbrev Entry := String × Doc

/-- `Map.has`. -/
def mapHas (l : List Entry) (id : String) : Bool := (l.map Prod.fst).contains id

/-- `Map.get`: first binding. -/
def mapGet (l : List Entry) (id : String) : Option Doc :=
  match l.find? (fun p => p.1 == id) with
  | some p => some p.2
  | none => none

/-- `Map.set`: replace in place when the key is present, append otherwise. -/
def mapSet (l : List Entry) (id : String) (d : Doc) : List Entry :=
  if mapHas l id then l.map (fun p => if p.1 == id then (id, d) else p)
  else l ++ [(id, d)]

/-- `Map.delete`'s effect on the entry sequence. -/
def mapDelete (l : List Entry) (id : String) : List Entry :=
  l.filter (fun p => !(p.1 == id))

/-- The backing blob for one collection key: never written, holding
unparsable text, or holding a well-formed snapshot. -/
inductive StoreState where
  | empty
  | corrupt
  | good (entries : List Entry)
  deriving DecidableEq

/-- Collection state: the in-memory ordered mapping plus the backing blob. -/
structure DB where
  data : List Entry
  store : StoreState
  deriving DecidableEq

/-- Whether the host accepts a write of the given snapshot
(`setDynamicProperty` not throwing). -/
abbrev SaveOracle := List Entry → Bool

/-- Embeds `saveChanges`: serialize the full entry sequence and write it;
`true` on success, `false` (blob unchanged) when the host write throws. -/
def saveChanges (saveOk : SaveOracle) (db : DB) : Bool × DB :=
  if saveOk db.data then (true, { db with store := .good db.data })
  else (false, db)

/-- A single 16-nibble draw: attempt `k` consumes nibbles `16*k .. 16*k+15`
of the stream, each printed as a lowercase hex digit (`toString(16)`). -/
def nibbleChar (n : Fin 16) : Char :=
  if n.val < 10 then Char.ofNat ('0'.toNat + n.val)
  else Char.ofNat ('a'.toNat + (n.val - 10))

/-- The 16-character candidate identifier built by one loop body of
`generateId`. -/
def drawId (rand : Nat → Fin 16) (k : Nat) : String :=
  String.mk ((List.range 16).map fun j => nibbleChar (rand (16 * k + j)))

/-- The retry loop of `generateId`, with fuel: return the first candidate not
already a key of the collection; `none` models the source looping beyond the
provided fuel. -/
def genLoop (rand : Nat → Fin 16) (keys : List String) : Nat → Nat → Option String
  | _, 0 => none
  | k, fuel + 1 =>
    let id := drawId rand k
    if keys.contains id then genLoop rand keys (k + 1) fuel else some id

/-- Embeds `generateId`: do-while drawing 16 random nibbles per attempt until
the candidate is absent from `data`. -/
def generateId (rand : Nat → Fin 16) (fuel : Nat) (data : List Entry) : Option String :=
  genLoop rand (data.map Prod.fst) 0 fuel

/-- Embeds `clear`: empty the mapping, persist, report the persist outcome. -/
def clearOp (saveOk : SaveOracle) (db : DB) : Bool × DB :=
  saveChanges saveOk { db with data := [] }

/-- Embeds `delete`: `false` if absent; otherwise remove from the mapping
first, then persist, reporting the persist outcome (no restore on failure). -/
def deleteOp (saveOk : SaveOracle) (id : String) (db : DB) : Bool × DB :=
  if !mapHas db.data id then (false, db)
  else
    let db1 := { db with data := mapDelete db.data id }
    let (ok, db2) := saveChanges saveOk db1
    if !ok then (false, db2) else (true, db2)

/-- Outcome of `create`: the thrown validation error, a `null` return after a
failed persist, or the generated identifier.  `exhausted` is the modelling
artifact for a retry loop that outruns its fuel. -/
inductive CreateOutcome where
  | threw
  | exhausted
  | retNull
  | created (id : String)
  deriving DecidableEq

/-- Embeds `create`: validate (throwing on rejection), generate a fresh
identifier, insert, persist; on persist failure delete the fresh entry again
and return `null`. -/
def createOp (V : ValidatorMap) (saveOk : SaveOracle) (rand : Nat → Fin 16)
    (fuel : Nat) (doc : Doc) (db : DB) : CreateOutcome × DB :=
  if !validate V doc then (.threw, db)
  else
    match generateId rand fuel db.data with
    | none => (.exhausted, db)
    | some id =>
      let db1 := { db with data := mapSet db.data id doc }
      let (ok, db2) := saveChanges saveOk db1
      if !ok then (.retNull, { db2 with data := mapDelete db2.data id })
      else (.created id, db2)

/-- Outcome of `update`: not-found `false`, thrown validation error, rolled
back `false` after a failed persist, or `true`. -/
inductive UpdateOutcome where
  | notFound
  | threw
  | retFalse
  | retTrue
  deriving DecidableEq

/-- Embeds `update`: fetch the existing document (`false` if absent), merge
the patch over it by object spread, validate the merged document (throwing on
rejection), store it, persist; on persist failure restore the original
document and return `false`. -/
def updateOp (V : ValidatorMap) (saveOk : SaveOracle) (id : String)
    (patch : Doc) (db : DB) : UpdateOutcome × DB :=
  match mapGet db.data id with
  | none => (.notFound, db)
  | some existingData =>
    let updatedData := mergeDoc existingData patch
    if !validate V updatedData then (.threw, db)
    else
      let originalData := existingData
      let db1 := { db with data := mapSet db.data id updatedData }
      let (ok, db2) := saveChanges saveOk db1
      if !ok then (.retFalse, { db2 with data := mapSet db2.data id originalData })
      else (.retTrue, db2)

/-- Embeds `findMany`: entries whose document satisfies the predicate (all
entries when no predicate is given), in collection order. -/
def findMany (pred : Option (Doc → Bool)) (db : DB) : List Entry :=
  match pred with
  | some p => db.data.filter (fun e => p e.2)
  | none => db.data

/-- Embeds `findOne`: the first entry of `findMany`. -/
def findOne (p : Doc → Bool) (db : DB) : Option Entry :=
  (findMany (some p) db).head?

/-- Embeds `findById`. -/
def findById (id : String) (db : DB) : Option Entry :=
  match mapGet db.data id with
  | some d => some (id, d)
  | none => none

/-- JS `Array.prototype.slice(0, e)`: a negative end counts back from the end
of the array (clamped at zero), a large end is clamped to the length. -/
def sliceTo {α : Type} (l : List α) (e : Int) : List α :=
  l.take (if e < 0 then ((l.length : Int) + e).toNat else e.toNat)

/-- Embeds `query`: keep the entries satisfying every condition, stable-sort
them by the comparator when a sort spec is given, then `slice(0, limit)`. -/
def query (conditions : List FilterCondition) (sort : Option SortOptions)
    (limit : Option Int) (db : DB) : List Entry :=
  let results := db.data.filter fun e =>
    conditions.all fun condition => evaluateCondition e.2 condition
  let results := match sort with
    | none => results
    | some sortEntries => sortCmp (fun a b => cmpDocs sortEntries a.2 b.2) results
  match limit with
  | none => results
  | some m => sliceTo results m

/-- Embeds the `size` accessor (`Map.size`). -/
def sizeOp (db : DB) : Nat := db.data.length

/-- Embeds `count`: the size when no condition is given, else the number of
stored documents satisfying the condition. -/
def count (condition : Option FilterCondition) (db : DB) : Nat :=
  match condition with
  | none => sizeOp db
  | some c => ((db.data.map Prod.snd).filter fun data => evaluateCondition data c).length

/-- Embeds `export`: the serialized full entry sequence, at the decoded level
of the host JSON codec. -/
def exportOp (db : DB) : List Entry := db.data

/-- Embeds `import`.  The input is the result of `JSON.parse` on the given
text: `none` when parsing threw (import returns `false`, state untouched).
Otherwise keep the entries passing validation, `clear()` (which persists the
empty snapshot), re-insert the valid entries, and persist. -/
def importOp (V : ValidatorMap) (saveOk : SaveOracle)
    (input : Option (List Entry)) (db : DB) : Bool × DB :=
  match input with
  | none => (false, db)
  | some entries =>
    let validEntries := entries.filter fun e => validate V e.2
    let (_, db1) := clearOp saveOk db
    let db2 := { db1 with
      data := validEntries.foldl (fun m e => mapSet m e.1 e.2) db1.data }
    saveChanges saveOk db2

/-- What `getDynamicProperty` + `JSON.parse` yield during construction:
nothing stored (falsy), a read fault or unparsable text (an exception), or a
decoded entry sequence. -/
inductive LoadResult where
  | absent
  | faulted
  | parsed (entries : List Entry)

/-- Embeds `initialize`: on a decoded snapshot, insert each entry whose
document validates (dropping the rest); on an absent value, do nothing; on an
exception, `clear()` and save (destructive recovery).  Runs on the fresh state
the constructor just built, so the mapping starts empty. -/
def initializeDB (V : ValidatorMap) (saveOk : SaveOracle) (store0 : StoreState)
    (load : LoadResult) : DB :=
  let db0 : DB := { data := [], store := store0 }
  match load with
  | .absent => db0
  | .faulted =>
    let (_, db1) := clearOp saveOk db0
    (saveChanges saveOk db1).2
  | .parsed entries =>
    { db0 with
      data := entries.foldl
        (fun m e => if validate V e.2 then mapSet m e.1 e.2 else m) db0.data }

/-- The decoded content of the blob a constructed collection reads, as a
`LoadResult`: an unwritten blob is absent, a corrupt blob faults the parse. -/
def loadOf : StoreState → LoadResult
  | .empty => .absent
  | .corrupt => .faulted
  | .good entries => .parsed entries

/-- Parameters of one `create` call in a call sequence: the document and the
per-call random stream, fuel and persistence behavior. -/
structure CreateCall where
  doc : Doc
  rand : Nat → Fin 16
  fuel : Nat
  saveOk : SaveOracle

/-- A sequence of `create` calls, recording each call's returned identifier
(`none` for a throw, exhausted fuel, or a `null` return). -/
def runCreates (V : ValidatorMap) : List CreateCall → DB → List (Option String) × DB
  | [], db => ([], db)
  | c :: cs, db =>
    let (out, db1) := createOp V c.saveOk c.rand c.fuel c.doc db
    let r := match out with
      | .created id => some id
      | _ => none
    let (rs, db2) := runCreates V cs db1
    (r :: rs, db2)

/-! ## Basic lemmas about the mapping operations -/

theorem mapHas_iff {l : List Entry} {id : String} :
    mapHas l id = true ↔ id ∈ l.map Prod.fst := by
  simp [mapHas, List.elem_iff]

theorem mapHas_false_not_mem {l : List Entry} {id : String}
    (h : mapHas l id = false) : ∀ p ∈ l, p.1 ≠ id := by
  intro p hp heq
  have : mapHas l id = true := mapHas_iff.mpr (heq ▸ List.mem_map_of_mem Prod.fst hp)
  simp [this] at h

theorem mapSet_of_not_has {l : List Entry} {id : String} {d : Doc}
    (h : mapHas l id = false) : mapSet l id d = l ++ [(id, d)] := by
  simp [mapSet, h]

theorem mapDelete_of_not_has {l : List Entry} {id : String}
    (h : mapHas l id = false) : mapDelete l id = l := by
  rw [mapDelete, List.filter_eq_self]
  intro p hp
  simpa using mapHas_false_not_mem h p hp

theorem mapDelete_mapSet_fresh {l : List Entry} {id : String} {d : Doc}
    (h : mapHas l id = false) : mapDelete (mapSet l id d) id = l := by
  rw [mapSet_of_not_has h, mapDelete, List.filter_append]
  have h1 : l.filter (fun p => !(p.1 == id)) = l := by
    rw [List.filter_eq_self]
    intro p hp
    simpa using mapHas_false_not_mem h p hp
  simp [h1]

theorem mapHas_mapDelete_self {l : List Entry} {id : String} :
    mapHas (mapDelete l id) id = false := by
  rw [← Bool.not_eq_true, mapHas_iff]
  simp only [mapDelete, List.mem_map]
  rintro ⟨p, hp, rfl⟩
  have := List.of_mem_filter hp
  simp at this

/-! ## Lemmas about the identifier generator -/

/-- Is the character one of the sixteen lowercase hexadecimal digits
(a decimal digit or a letter between a and f)? -/
def isLowerHex (c : Char) : Bool :=
  ('0'.toNat ≤ c.toNat && c.toNat ≤ '9'.toNat)
    || ('a'.toNat ≤ c.toNat && c.toNat ≤ 'f'.toNat)

theorem nibbleChar_isLowerHex (n : Fin 16) : isLowerHex (nibbleChar n) = true := by
  revert n; decide

theorem drawId_length (rand : Nat → Fin 16) (k : Nat) :
    (drawId rand k).length = 16 := by
  simp [drawId, String.length]

theorem drawId_chars (rand : Nat → Fin 16) (k : Nat) :
    ∀ c ∈ (drawId rand k).data, isLowerHex c = true := by
  intro c hc
  simp only [drawId, String.data, List.mem_map] at hc
  obtain ⟨j, _, rfl⟩ := hc
  exact nibbleChar_isLowerHex _

theorem genLoop_some {rand : Nat → Fin 16} {keys : List String} {id : String} :
    ∀ {k fuel : Nat}, genLoop rand keys k fuel = some id →
      keys.contains id = false ∧ ∃ j, id = drawId rand j := by
  intro k fuel
  induction fuel generalizing k with
  | zero => simp [genLoop]
  | succ n ih =>
    intro h
    rw [genLoop] at h
    by_cases hc : keys.contains (drawId rand k)
    · simp only [hc, if_pos] at h
      exact ih h
    · simp only [hc, if_neg, Bool.false_eq_true, not_false_eq_true, if_neg] at h
      cases h
      exact ⟨Bool.eq_false_iff.mpr hc, k, rfl⟩

theorem generateId_some {rand : Nat → Fin 16} {fuel : Nat} {data : List Entry}
    {id : String} (h : generateId rand fuel data = some id) :
    mapHas data id = false ∧ id.length = 16 ∧ ∀ c ∈ id.data, isLowerHex c = true := by
  obtain ⟨hc, j, rfl⟩ := genLoop_some h
  exact ⟨hc, drawId_length rand j, drawId_chars rand j⟩

/-! ## Claim C1: create rolls back on persistence failure -/

/-- **C1.** For every document `d` that passes validation, if the persistence
save performed by `create(d)` fails, then the newly inserted document is
removed from the in-memory mapping — the whole state (mapping and blob)
equals its pre-call state — and `create` returns `null` rather than an
identifier. -/
theorem claim_C1 (V : ValidatorMap) (saveOk : SaveOracle) (rand : Nat → Fin 16)
    (fuel : Nat) (doc : Doc) (db : DB) (id : String)
    (hval : validate V doc = true)
    (hgen : generateId rand fuel db.data = some id)
    (hsave : saveOk (mapSet db.data id doc) = false) :
    createOp V saveOk rand fuel doc db = (.retNull, db) := by
  have hfresh : mapHas db.data id = false := (generateId_some hgen).1
  simp only [createOp, hval, Bool.not_true, Bool.false_eq_true, if_neg,
    not_false_eq_true, hgen, saveChanges, hsave, if_neg, Bool.not_false, if_pos]
  rw [mapDelete_mapSet_fresh hfresh]

/-- **C1 witness.** -/
theorem claim_C1_witness :
    createOp [("age", fun v => v == .vInt 20)] (fun _ => false) (fun _ => ⟨0, by omega⟩)
      1 [("age", .vInt 20)] { data := [], store := .empty }
      = (.retNull, { data := [], store := .empty }) :=
  claim_C1 _ _ _ _ _ _ "0000000000000000" (by decide) (by decide) (by decide)

/-! ## Claim C10: delete removes before persisting and does not restore -/

/-- **C10.** For every identifier present in the collection, `delete(id)`
removes the document from the in-memory mapping unconditionally, before
persistence; if the save then fails, `delete` returns `false` but the
document is not restored — the mapping no longer contains `id` even though
the deletion was reported as failed. -/
theorem claim_C10 (saveOk : SaveOracle) (id : String) (db : DB)
    (hmem : mapHas db.data id = true)
    (hsave : saveOk (mapDelete db.data id) = false) :
    deleteOp saveOk id db = (false, { db with data := mapDelete db.data id })
    ∧ mapHas (mapDelete db.data id) id = false := by
  constructor
  · simp only [deleteOp, hmem, Bool.not_true, Bool.false_eq_true, if_neg,
      not_false_eq_true, saveChanges, hsave, Bool.not_false, if_neg, if_pos]
  · exact mapHas_mapDelete_self

/-- **C10 witness.** -/
theorem claim_C10_witness :
    deleteOp (fun _ => false) "k" { data := [("k", [])], store := .empty }
      = (false, { data := [], store := .empty })
    ∧ mapHas (mapDelete [("k", ([] : Doc))] "k") "k" = false :=
  claim_C10 (fun _ => false) "k" { data := [("k", [])], store := .empty }
    (by decide) (by decide)

/-! ## Claim C8: count agrees with size and findMany -/

/-- **C8.** In every collection state, `count()` with no condition equals the
`size` accessor and the length of `findMany` with an always-true predicate;
and for every single condition `c`, `count(c)` equals the number of stored
documents satisfying `c`. -/
theorem claim_C8 (db : DB) (c : FilterCondition) :
    count none db = sizeOp db
    ∧ count none db = (findMany (some fun _ => true) db).length
    ∧ count (some c) db = (db.data.filter fun e => evaluateCondition e.2 c).length := by
  refine ⟨rfl, ?_, ?_⟩
  · simp [count, sizeOp, findMany]
  · simp only [count, List.filter_map, List.length_map]
    rfl

/-! ## Claim C6: export/import round trip -/

theorem mapHas_append {a b : List Entry} {id : String} :
    mapHas (a ++ b) id = (mapHas a id || mapHas b id) := by
  simp only [mapHas, List.map_append, List.contains_eq_any_beq, List.any_append]

theorem saveChanges_data (saveOk : SaveOracle) (db : DB) :
    (saveChanges saveOk db).2.data = db.data := by
  rw [saveChanges]
  split <;> rfl

theorem foldl_mapSet_append :
    ∀ (l acc : List Entry), (l.map Prod.fst).Nodup →
      (∀ k ∈ l.map Prod.fst, mapHas acc k = false) →
      l.foldl (fun m e => mapSet m e.1 e.2) acc = acc ++ l := by
  intro l
  induction l with
  | nil => simp
  | cons e t ih =>
    intro acc hnd hfresh
    simp only [List.map_cons, List.nodup_cons, List.mem_map] at hnd
    have he : mapHas acc e.1 = false := hfresh e.1 (by simp)
    rw [List.foldl_cons, mapSet_of_not_has he,
      ih _ (by simpa using hnd.2) ?_, List.append_assoc, List.singleton_append]
    intro k hk
    rw [mapHas_append, hfresh k (by simp [hk]), Bool.false_or,
      ← Bool.not_eq_true, mapHas_iff]
    simp only [List.map_cons, List.map_nil, List.mem_singleton]
    rintro rfl
    obtain ⟨p, hp, hpk⟩ := List.mem_map.mp hk
    exact hnd.1 ⟨p, hp, hpk⟩

/-- **C6.** For every collection whose documents all pass validation, calling
`export()` and then `import()` of that snapshot into a fresh collection with
the same validators reproduces an ordered id→document mapping equal to the
original, entry for entry and in the same order. -/
theorem claim_C6 (V : ValidatorMap) (saveOk : SaveOracle) (A fresh : DB)
    (hvalid : ∀ e ∈ A.data, validate V e.2 = true)
    (hnodup : (A.data.map Prod.fst).Nodup) :
    ((importOp V saveOk (some (exportOp A)) fresh).2).data = A.data := by
  simp only [importOp, exportOp, clearOp]
  rw [List.filter_eq_self.mpr hvalid, saveChanges_data]
  have hdata1 : (saveChanges saveOk { fresh with data := [] }).2.data = [] :=
    saveChanges_data _ _
  rw [hdata1, foldl_mapSet_append A.data [] hnodup (by intro k _; rfl),
    List.nil_append]

/-- **C6 witness.** -/
theorem claim_C6_witness :
    ((importOp [("age", fun v => v == .vInt 20)] (fun _ => true)
      (some (exportOp { data := [("k", [("age", .vInt 20)])], store := .empty }))
      { data := [], store := .empty }).2).data = [("k", [("age", .vInt 20)])] :=
  claim_C6 _ _ _ { data := [], store := .empty } (by decide) (by decide)

/-! ## Claim C7: construction-time load recovery -/

/-- **C7 counterexample.** The claim says absent stored text also triggers an
immediate persist of the empty state.  It does not: with nothing stored and a
host that accepts every write, `initialize` leaves the blob unwritten (the
`if (storedData)` guard skips the whole body, and no exception is raised, so
the `clear()`/`saveChanges()` recovery never runs). -/
theorem claim_C7_counterexample :
    (initializeDB [] (fun _ => true) .empty (loadOf .empty)).store = .empty
    ∧ StoreState.empty ≠ StoreState.good [] := by
  constructor
  · rfl
  · intro h
    cases h

/-- **C7 amended.** During construction-time load: absent stored text is
treated as no prior state — the collection ends up empty and nothing is
written back; unparsable stored text (or a read fault) triggers destructive
recovery — the collection is reset to empty and that empty state is
immediately saved, the blob becoming the empty snapshot exactly when the host
accepts the write; in both cases the constructor does not fail (the load is a
total function of the stored state). -/
theorem claim_C7_amended (V : ValidatorMap) (saveOk : SaveOracle) :
    (initializeDB V saveOk .empty (loadOf .empty)).data = []
    ∧ (initializeDB V saveOk .empty (loadOf .empty)).store = .empty
    ∧ (initializeDB V saveOk .corrupt (loadOf .corrupt)).data = []
    ∧ (saveOk [] = true →
        (initializeDB V saveOk .corrupt (loadOf .corrupt)).store = .good [])
    ∧ (saveOk [] = false →
        (initializeDB V saveOk .corrupt (loadOf .corrupt)).store = .corrupt) := by
  refine ⟨rfl, rfl, ?_, ?_, ?_⟩
  · simp only [initializeDB, loadOf, clearOp, saveChanges]
    split <;> rfl
  · intro h
    simp [initializeDB, loadOf, clearOp, saveChanges, h]
  · intro h
    simp [initializeDB, loadOf, clearOp, saveChanges, h]

/-- **C7 amended witness.** -/
theorem claim_C7_amended_witness :
    (initializeDB [] (fun _ => false) .empty (loadOf .empty)).data = []
    ∧ (initializeDB [] (fun _ => false) .empty (loadOf .empty)).store = .empty
    ∧ (initializeDB [] (fun _ => false) .corrupt (loadOf .corrupt)).data = []
    ∧ (initializeDB [] (fun _ => false) .corrupt (loadOf .corrupt)).store = .corrupt :=
  ⟨(claim_C7_amended [] (fun _ => false)).1,
   (claim_C7_amended [] (fun _ => false)).2.1,
   (claim_C7_amended [] (fun _ => false)).2.2.1,
   (claim_C7_amended [] (fun _ => false)).2.2.2.2 rfl⟩

/-! ## Claim C3: update validates the full merged document and rolls back -/

theorem docGet_not_mem {d : Doc} {f : String} (h : f ∉ docKeys d) :
    docGet d f = .vUndefined := by
  have hn : d.find? (fun p => p.1 == f) = none := by
    rw [List.find?_eq_none]
    intro p hp
    simp only [Bool.not_eq_true, beq_eq_false_iff_ne, ne_eq]
    intro he
    exact h (he ▸ List.mem_map_of_mem Prod.fst hp)
  simp [docGet, hn]

theorem docGet_mergeDoc_not_mem {a patch : Doc} {f : String}
    (h : f ∉ docKeys patch) :
    docGet (mergeDoc a patch) f = docGet a f := by
  have hpn : patch.find? (fun q => q.1 == f) = none := by
    rw [List.find?_eq_none]
    intro q hq
    simp only [Bool.not_eq_true, beq_eq_false_iff_ne, ne_eq]
    intro he
    exact h (he ▸ List.mem_map_of_mem Prod.fst hq)
  rw [mergeDoc, docGet, List.find?_append, List.find?_map]
  have hcomp : ((fun p => p.1 == f) ∘ fun p =>
      (p.1, match patch.find? (fun q => q.1 == p.1) with
            | some q => q.2
            | none => p.2)) = fun p : String × Value => p.1 == f := rfl
  rw [hcomp]
  cases ha : a.find? (fun p => p.1 == f) with
  | some q =>
    have hq1 : q.1 = f := by
      have := List.find?_some ha
      simpa using this
    show (match patch.find? (fun r => r.1 == q.1) with
          | some r => r.2
          | none => q.2) = docGet a f
    rw [hq1, hpn, docGet, ha]
  | none =>
    have hfn : (patch.filter fun q => !(a.map Prod.fst).contains q.1).find?
        (fun p => p.1 == f) = none := by
      rw [List.find?_eq_none]
      intro q hq
      simp only [Bool.not_eq_true, beq_eq_false_iff_ne, ne_eq]
      intro he
      exact h (he ▸ List.mem_map_of_mem Prod.fst (List.mem_of_mem_filter hq))
    show (match ((patch.filter fun q => !(a.map Prod.fst).contains q.1).find?
          (fun p => p.1 == f)) with
          | some p => p.2
          | none => Value.vUndefined) = docGet a f
    rw [hfn, docGet, ha]

theorem mapGet_some_has {l : List Entry} {k : String} {orig : Doc}
    (h : mapGet l k = some orig) : mapHas l k = true := by
  rw [mapGet] at h
  cases hf : l.find? (fun p => p.1 == k) with
  | none => rw [hf] at h; cases h
  | some p =>
    have hp1 : p.1 = k := by simpa using List.find?_some hf
    exact mapHas_iff.mpr (hp1 ▸ List.mem_map_of_mem Prod.fst (List.mem_of_find?_eq_some hf))

theorem mapSet_present {l : List Entry} {k : String} {d : Doc}
    (h : mapHas l k = true) :
    mapSet l k d = l.map (fun p => if p.1 == k then (k, d) else p) := by
  simp [mapSet, h]

theorem map_eq_self_of {α : Type} :
    ∀ (l : List α) (f : α → α), (∀ x ∈ l, f x = x) → l.map f = l := by
  intro l f
  induction l with
  | nil => intro _; rfl
  | cons a t ih =>
    intro h
    rw [List.map_cons, h a (List.mem_cons_self a t),
      ih (fun x hx => h x (List.mem_cons_of_mem a hx))]

theorem keys_mapSet_present {l : List Entry} {k : String} {d : Doc}
    (h : mapHas l k = true) :
    (mapSet l k d).map Prod.fst = l.map Prod.fst := by
  rw [mapSet_present h, List.map_map]
  refine List.map_congr_left ?_
  intro p _
  by_cases hp : p.1 == k
  · rw [Function.comp_apply, if_pos hp]
    exact (eq_of_beq hp).symm
  · rw [Function.comp_apply, if_neg hp]

theorem mapHas_mapSet_present {l : List Entry} {k : String} {d : Doc}
    (h : mapHas l k = true) (x : String) :
    mapHas (mapSet l k d) x = mapHas l x := by
  rw [mapHas, keys_mapSet_present h, mapHas]

theorem mapSet_mapSet_restore :
    ∀ (l : List Entry) (k : String) (orig m : Doc),
      (l.map Prod.fst).Nodup → mapGet l k = some orig →
      mapSet (mapSet l k m) k orig = l := by
  intro l
  induction l with
  | nil => intro k orig m _ hget; cases hget
  | cons p t ih =>
    intro k orig m hnd hget
    simp only [List.map_cons, List.nodup_cons, List.mem_map] at hnd
    by_cases hpk : p.1 == k
    · have hp1 : p.1 = k := eq_of_beq hpk
      have hfind : List.find? (fun q => q.1 == k) (p :: t) = some p :=
        List.find?_cons_of_pos t hpk
      have horig : orig = p.2 := by
        rw [mapGet, hfind] at hget
        exact (Option.some.inj hget).symm
      have htkeys : ∀ q ∈ t, (q.1 == k) = false := by
        intro q hq
        simp only [beq_eq_false_iff_ne, ne_eq]
        intro he
        exact hnd.1 ⟨q, hq, by rw [he, hp1]⟩
      have hmapid : ∀ d : Doc, t.map (fun q => if q.1 == k then (k, d) else q) = t := by
        intro d
        exact map_eq_self_of t _ (fun q hq => by simp [htkeys q hq])
      have hhas1 : mapHas (p :: t) k = true :=
        mapHas_iff.mpr (hp1 ▸ List.mem_map_of_mem Prod.fst (List.mem_cons_self p t))
      rw [mapSet_present hhas1]
      simp only [List.map_cons, hpk, if_pos, hmapid]
      have hhas2 : mapHas ((k, m) :: t) k = true :=
        mapHas_iff.mpr (List.mem_map_of_mem Prod.fst (List.mem_cons_self (k, m) t))
      rw [mapSet_present hhas2]
      simp only [List.map_cons, beq_self_eq_true, if_pos, hmapid]
      rw [horig, ← hp1]
    · have hpk' : (p.1 == k) = false := Bool.eq_false_iff.mpr hpk
      have hget' : mapGet t k = some orig := by
        rw [mapGet, List.find?_cons_of_neg t (by simp [hpk'])] at hget
        exact hget
      have hhast : mapHas t k = true := mapGet_some_has hget'
      have hhas1 : mapHas (p :: t) k = true := by
        rw [show p :: t = [p] ++ t from rfl, mapHas_append, hhast, Bool.or_true]
      rw [mapSet_present hhas1]
      simp only [List.map_cons, hpk', Bool.false_eq_true, if_neg, if_false]
      rw [← mapSet_present hhast]
      have hhasset : mapHas (mapSet t k m) k = true := by
        rw [mapHas_mapSet_present hhast]
        exact hhast
      have hhas2 : mapHas (p :: mapSet t k m) k = true := by
        rw [show p :: mapSet t k m = [p] ++ mapSet t k m from rfl, mapHas_append,
          hhasset, Bool.or_true]
      rw [mapSet_present hhas2]
      simp only [List.map_cons, hpk', Bool.false_eq_true, if_neg, if_false]
      rw [← mapSet_present hhasset, ih k orig m hnd.2 hget']

/-- **C3.** For every present identifier and patch, `update` validates the
merged document (existing fields overridden by patch fields) against the full
`ValidatorMap`: fields not named in the patch keep their existing value in
the merged document, so they are still checked; if validation rejects, update
raises the validation error and the state (stored document included) is the
pre-update state; if validation passes but persistence fails, the pre-update
document is restored and update returns `false` with the state rolled back. -/
theorem claim_C3 (V : ValidatorMap) (saveOk : SaveOracle) (id : String)
    (patch existing : Doc) (db : DB)
    (hnodup : (db.data.map Prod.fst).Nodup)
    (hget : mapGet db.data id = some existing) :
    (∀ f, f ∉ docKeys patch → docGet (mergeDoc existing patch) f = docGet existing f)
    ∧ (validate V (mergeDoc existing patch) = false →
        updateOp V saveOk id patch db = (.threw, db))
    ∧ (validate V (mergeDoc existing patch) = true →
        saveOk (mapSet db.data id (mergeDoc existing patch)) = false →
        updateOp V saveOk id patch db = (.retFalse, db)) := by
  refine ⟨fun f hf => docGet_mergeDoc_not_mem hf, ?_, ?_⟩
  · intro hv
    simp only [updateOp, hget, hv, Bool.not_false, if_pos]
  · intro hv hsave
    simp only [updateOp, hget, hv, Bool.not_true, Bool.false_eq_true, if_neg,
      not_false_eq_true, saveChanges, hsave, Bool.not_false, if_pos]
    rw [mapSet_mapSet_restore db.data id existing (mergeDoc existing patch) hnodup hget]

/-- **C3 witness.** -/
theorem claim_C3_witness :
    updateOp [("age", fun v => v == Value.vInt 20)] (fun _ => false) "k"
      [("age", .vInt 99)] { data := [("k", [("age", .vInt 20)])], store := .empty }
      = (.threw, { data := [("k", [("age", .vInt 20)])], store := .empty })
    ∧ updateOp [("age", fun v => v == Value.vInt 20)] (fun _ => false) "k"
      [] { data := [("k", [("age", .vInt 20)])], store := .empty }
      = (.retFalse, { data := [("k", [("age", .vInt 20)])], store := .empty }) :=
  ⟨(claim_C3 _ _ "k" [("age", .vInt 99)] [("age", .vInt 20)]
      { data := [("k", [("age", .vInt 20)])], store := .empty }
      (by decide) (by decide)).2.1 (by decide),
   (claim_C3 _ _ "k" [] [("age", .vInt 20)]
      { data := [("k", [("age", .vInt 20)])], store := .empty }
      (by decide) (by decide)).2.2 (by decide) (by decide)⟩

/-! ## Claim C2: identifiers are fresh hex strings, pairwise distinct -/

theorem createOp_data (V : ValidatorMap) (s : SaveOracle) (r : Nat → Fin 16)
    (f : Nat) (d : Doc) (db : DB) :
    (∃ id, (createOp V s r f d db).1 = .created id ∧ mapHas db.data id = false ∧
      (createOp V s r f d db).2.data = db.data ++ [(id, d)])
    ∨ ((∀ id, (createOp V s r f d db).1 ≠ .created id) ∧
      (createOp V s r f d db).2.data = db.data) := by
  by_cases hv : validate V d
  · cases hg : generateId r f db.data with
    | none =>
      right
      refine ⟨fun id => ?_, ?_⟩ <;> simp [createOp, hv, hg]
    | some id =>
      have hfresh := (generateId_some hg).1
      have happ : mapSet db.data id d = db.data ++ [(id, d)] := mapSet_of_not_has hfresh
      have hdel : mapDelete (db.data ++ [(id, d)]) id = db.data := by
        rw [← happ]
        exact mapDelete_mapSet_fresh hfresh
      by_cases hs : s (db.data ++ [(id, d)]) = true
      · left
        refine ⟨id, ?_, hfresh, ?_⟩ <;>
          simp [createOp, hv, hg, saveChanges, happ, hs]
      · have hs' : s (db.data ++ [(id, d)]) = false := by
          simpa using hs
        right
        refine ⟨fun id' => ?_, ?_⟩ <;>
          simp [createOp, hv, hg, saveChanges, happ, hs', hdel]
  · have hv' : validate V d = false := Bool.eq_false_iff.mpr hv
    right
    refine ⟨fun id => ?_, ?_⟩ <;> simp [createOp, hv']

theorem createOp_has_mono (V : ValidatorMap) (s : SaveOracle) (r : Nat → Fin 16)
    (f : Nat) (d : Doc) (db : DB) (x : String)
    (h : mapHas db.data x = true) :
    mapHas (createOp V s r f d db).2.data x = true := by
  rcases createOp_data V s r f d db with ⟨id, _, _, hdata⟩ | ⟨_, hdata⟩
  · rw [hdata, mapHas_append, h, Bool.true_or]
  · rw [hdata]; exact h

theorem createOp_created_has (V : ValidatorMap) (s : SaveOracle) (r : Nat → Fin 16)
    (f : Nat) (d : Doc) (db : DB) (id : String)
    (h : (createOp V s r f d db).1 = .created id) :
    mapHas db.data id = false ∧ mapHas (createOp V s r f d db).2.data id = true := by
  rcases createOp_data V s r f d db with ⟨id', h1, hfresh, hdata⟩ | ⟨hno, _⟩
  · have : id' = id := by
      rw [h1] at h
      cases h
      rfl
    subst this
    refine ⟨hfresh, ?_⟩
    rw [hdata, mapHas_append]
    simp [mapHas]
  · exact absurd h (hno id)

theorem runCreates_has_mono (V : ValidatorMap) :
    ∀ (cs : List CreateCall) (db : DB) (x : String),
      mapHas db.data x = true → mapHas (runCreates V cs db).2.data x = true := by
  intro cs
  induction cs with
  | nil => intro db x h; exact h
  | cons c t ih =>
    intro db x h
    rcases hc : createOp V c.saveOk c.rand c.fuel c.doc db with ⟨out, db1⟩
    have h1 : mapHas db1.data x = true := by
      have := createOp_has_mono V c.saveOk c.rand c.fuel c.doc db x h
      rwa [hc] at this
    simp only [runCreates, hc]
    exact ih db1 x h1

theorem runCreates_not_ret_of_has (V : ValidatorMap) :
    ∀ (cs : List CreateCall) (db : DB) (x : String),
      mapHas db.data x = true →
      x ∉ (runCreates V cs db).1.filterMap (fun a => a) := by
  intro cs
  induction cs with
  | nil => intro db x _ hmem; simp [runCreates] at hmem
  | cons c t ih =>
    intro db x h hmem
    rcases hc : createOp V c.saveOk c.rand c.fuel c.doc db with ⟨out, db1⟩
    have h1 : mapHas db1.data x = true := by
      have := createOp_has_mono V c.saveOk c.rand c.fuel c.doc db x h
      rwa [hc] at this
    simp only [runCreates, hc] at hmem
    cases out with
    | created id =>
      simp only [List.filterMap_cons_some] at hmem
      rcases List.mem_cons.mp hmem with rfl | hmem'
      · have hfr := (createOp_created_has V c.saveOk c.rand c.fuel c.doc db x
          (by rw [hc])).1
        rw [h] at hfr
        cases hfr
      · exact ih db1 x h1 hmem'
    | threw =>
      simp only [List.filterMap_cons_none] at hmem
      exact ih db1 x h1 hmem
    | exhausted =>
      simp only [List.filterMap_cons_none] at hmem
      exact ih db1 x h1 hmem
    | retNull =>
      simp only [List.filterMap_cons_none] at hmem
      exact ih db1 x h1 hmem

theorem runCreates_nodup (V : ValidatorMap) :
    ∀ (cs : List CreateCall) (db : DB),
      ((runCreates V cs db).1.filterMap (fun a => a)).Nodup := by
  intro cs
  induction cs with
  | nil => intro db; simp [runCreates]
  | cons c t ih =>
    intro db
    rcases hc : createOp V c.saveOk c.rand c.fuel c.doc db with ⟨out, db1⟩
    simp only [runCreates, hc]
    cases out with
    | created id =>
      simp only [List.filterMap_cons_some]
      refine List.nodup_cons.mpr ⟨?_, ih db1⟩
      have hin : mapHas db1.data id = true := by
        have := (createOp_created_has V c.saveOk c.rand c.fuel c.doc db id
          (by rw [hc])).2
        rwa [hc] at this
      exact runCreates_not_ret_of_has V t db1 id hin
    | threw => simpa only [List.filterMap_cons_none] using ih db1
    | exhausted => simpa only [List.filterMap_cons_none] using ih db1
    | retNull => simpa only [List.filterMap_cons_none] using ih db1

/-- **C2.** The identifier generator, when its retry loop terminates, returns
a 16-character string of lowercase hexadecimal digits that is not already a
key of the collection; and for any sequence of `create` calls on one
collection, the identifiers actually returned are pairwise distinct. -/
theorem claim_C2 (rand : Nat → Fin 16) (fuel : Nat) (data : List Entry)
    (genId : String) (V : ValidatorMap) (calls : List CreateCall) (db : DB)
    (h : generateId rand fuel data = some genId) :
    (genId.length = 16 ∧ (∀ c ∈ genId.data, isLowerHex c = true) ∧ mapHas data genId = false)
    ∧ ((runCreates V calls db).1.filterMap (fun a => a)).Nodup := by
  obtain ⟨hfresh, hlen, hhex⟩ := generateId_some h
  exact ⟨⟨hlen, hhex, hfresh⟩, runCreates_nodup V calls db⟩

/-- **C2 witness.** -/
theorem claim_C2_witness :
    ("0000000000000000".length = 16
      ∧ (∀ c ∈ "0000000000000000".data, isLowerHex c = true)
      ∧ mapHas [] "0000000000000000" = false)
    ∧ ((runCreates []
        [⟨[], fun _ => ⟨0, Nat.succ_pos 15⟩, 1, fun _ => true⟩,
         ⟨[], fun _ => ⟨1, by omega⟩, 2, fun _ => true⟩]
        { data := [], store := .empty }).1.filterMap (fun a => a)).Nodup :=
  claim_C2 (fun _ => ⟨0, Nat.succ_pos 15⟩) 1 [] "0000000000000000" []
    [⟨[], fun _ => ⟨0, Nat.succ_pos 15⟩, 1, fun _ => true⟩,
     ⟨[], fun _ => ⟨1, by omega⟩, 2, fun _ => true⟩]
    { data := [], store := .empty } (by decide)

/-! ## Claim C9: every stored document passes all validators -/

/-- The collection invariant: every stored document passes every registered
validator predicate. -/
def ValidData (V : ValidatorMap) (l : List Entry) : Bool :=
  l.all fun e => validate V e.2

theorem ValidData_mapSet {V : ValidatorMap} {l : List Entry} {k : String} {d : Doc}
    (h : ValidData V l = true) (hd : validate V d = true) :
    ValidData V (mapSet l k d) = true := by
  rw [ValidData, List.all_eq_true] at h ⊢
  intro e he
  by_cases hk : mapHas l k
  · rw [mapSet_present hk] at he
    obtain ⟨p, hp, rfl⟩ := List.mem_map.mp he
    by_cases hpk : p.1 == k
    · rw [if_pos hpk]; exact hd
    · rw [if_neg hpk]; exact h p hp
  · rw [mapSet, if_neg hk] at he
    rcases List.mem_append.mp he with hm | hm
    · exact h e hm
    · rw [List.mem_singleton.mp hm]; exact hd

theorem ValidData_filter {V : ValidatorMap} {l : List Entry} {p : Entry → Bool}
    (h : ValidData V l = true) : ValidData V (l.filter p) = true := by
  rw [ValidData, List.all_eq_true] at h ⊢
  intro e he
  exact h e (List.mem_of_mem_filter he)

theorem ValidData_foldl_set {V : ValidatorMap} :
    ∀ (l : List Entry) (acc : List Entry), ValidData V acc = true →
      (∀ e ∈ l, validate V e.2 = true) →
      ValidData V (l.foldl (fun m e => mapSet m e.1 e.2) acc) = true := by
  intro l
  induction l with
  | nil => intro acc h _; exact h
  | cons e t ih =>
    intro acc h hl
    rw [List.foldl_cons]
    exact ih _ (ValidData_mapSet h (hl e (List.mem_cons_self e t)))
      (fun x hx => hl x (List.mem_cons_of_mem e hx))

theorem ValidData_foldl_cond {V : ValidatorMap} :
    ∀ (l : List Entry) (acc : List Entry), ValidData V acc = true →
      ValidData V (l.foldl
        (fun m e => if validate V e.2 then mapSet m e.1 e.2 else m) acc) = true := by
  intro l
  induction l with
  | nil => intro acc h; exact h
  | cons e t ih =>
    intro acc h
    rw [List.foldl_cons]
    by_cases hv : validate V e.2
    · rw [if_pos hv]; exact ih _ (ValidData_mapSet h hv)
    · rw [if_neg hv]; exact ih _ h

theorem mapGet_validate {V : ValidatorMap} {l : List Entry} {k : String} {d : Doc}
    (h : ValidData V l = true) (hget : mapGet l k = some d) :
    validate V d = true := by
  rw [ValidData, List.all_eq_true] at h
  rw [mapGet] at hget
  cases hf : l.find? (fun p => p.1 == k) with
  | none => rw [hf] at hget; cases hget
  | some p =>
    rw [hf] at hget
    cases hget
    exact h p (List.mem_of_find?_eq_some hf)

/-- **C9.** Every document present in the in-memory mapping satisfies all
registered validator predicates: the invariant is established by the
construction-time load (entries failing validation are dropped) and preserved
by `create`, `update`, `import`, `delete` and `clear`. -/
theorem claim_C9 (V : ValidatorMap) (saveOk : SaveOracle) (rand : Nat → Fin 16)
    (fuel : Nat) (doc patch : Doc) (id : String) (st : StoreState)
    (load : LoadResult) (input : Option (List Entry)) (db : DB)
    (h : ValidData V db.data = true) :
    ValidData V (initializeDB V saveOk st load).data = true
    ∧ ValidData V (createOp V saveOk rand fuel doc db).2.data = true
    ∧ ValidData V (updateOp V saveOk id patch db).2.data = true
    ∧ ValidData V (importOp V saveOk input db).2.data = true
    ∧ ValidData V (deleteOp saveOk id db).2.data = true
    ∧ ValidData V (clearOp saveOk db).2.data = true := by
  refine ⟨?_, ?_, ?_, ?_, ?_, ?_⟩
  · cases load with
    | absent => rfl
    | faulted =>
      simp only [initializeDB, clearOp]
      rw [saveChanges_data, saveChanges_data]
      rfl
    | parsed entries =>
      simp only [initializeDB]
      exact ValidData_foldl_cond entries [] rfl
  · by_cases hv : validate V doc
    · cases hg : generateId rand fuel db.data with
      | none => simp only [createOp, hv, Bool.not_true, Bool.false_eq_true, if_neg,
          not_false_eq_true, hg]; exact h
      | some gid =>
        have hfresh := (generateId_some hg).1
        by_cases hs : saveOk (mapSet db.data gid doc) = true
        · simp only [createOp, hv, Bool.not_true, Bool.false_eq_true, if_neg,
            not_false_eq_true, hg, saveChanges, hs, if_pos, Bool.not_true]
          exact ValidData_mapSet h hv
        · have hs' : saveOk (mapSet db.data gid doc) = false := by simpa using hs
          simp only [createOp, hv, Bool.not_true, Bool.false_eq_true, if_neg,
            not_false_eq_true, hg, saveChanges, hs', Bool.not_false, if_pos]
          rw [mapDelete_mapSet_fresh hfresh]
          exact h
    · have hv' : validate V doc = false := Bool.eq_false_iff.mpr hv
      simp only [createOp, hv', Bool.not_false, if_pos]
      exact h
  · cases hget : mapGet db.data id with
    | none => simp only [updateOp, hget]; exact h
    | some existing =>
      have hex : validate V existing = true := mapGet_validate h hget
      by_cases hv : validate V (mergeDoc existing patch)
      · by_cases hs : saveOk (mapSet db.data id (mergeDoc existing patch)) = true
        · simp only [updateOp, hget, hv, Bool.not_true, Bool.false_eq_true, if_neg,
            not_false_eq_true, saveChanges, hs, if_pos, Bool.not_true]
          exact ValidData_mapSet h hv
        · have hs' : saveOk (mapSet db.data id (mergeDoc existing patch)) = false := by
            simpa using hs
          simp only [updateOp, hget, hv, Bool.not_true, Bool.false_eq_true, if_neg,
            not_false_eq_true, saveChanges, hs', Bool.not_false, if_pos]
          exact ValidData_mapSet (ValidData_mapSet h hv) hex
      · have hv' : validate V (mergeDoc existing patch) = false := Bool.eq_false_iff.mpr hv
        simp only [updateOp, hget, hv', Bool.not_false, if_pos]
        exact h
  · cases input with
    | none => exact h
    | some entries =>
      simp only [importOp, clearOp]
      rw [saveChanges_data]
      refine ValidData_foldl_set _ _ ?_ ?_
      · rw [saveChanges_data]
        rfl
      · intro e he
        exact (List.mem_filter.mp he).2
  · by_cases hd : mapHas db.data id = true
    · simp only [deleteOp, hd, Bool.not_true, Bool.false_eq_true, if_neg, not_false_eq_true]
      have : ValidData V (mapDelete db.data id) = true := ValidData_filter h
      cases hs : saveOk (mapDelete db.data id) <;>
        simp only [saveChanges, hs, Bool.false_eq_true, if_neg, if_pos,
          Bool.not_false, Bool.not_true] <;>
        exact this
    · have hd' : mapHas db.data id = false := by simpa using hd
      simp only [deleteOp, hd', Bool.not_false, if_pos]
      exact h
  · simp only [clearOp]
    rw [saveChanges_data]
    rfl

/-- **C9 witness.** -/
theorem claim_C9_witness :
    ValidData [("age", fun v => v == Value.vInt 20)]
      (initializeDB [("age", fun v => v == Value.vInt 20)] (fun _ => true) .empty
        (.parsed [("k", [("age", .vInt 20)]), ("j", [("age", .vInt 7)])])).data = true
    ∧ ValidData [("age", fun v => v == Value.vInt 20)]
      (createOp [("age", fun v => v == Value.vInt 20)] (fun _ => true)
        (fun _ => ⟨0, Nat.succ_pos 15⟩) 1 [("age", .vInt 20)]
        { data := [], store := .empty }).2.data = true :=
  ⟨((claim_C9 [("age", fun v => v == Value.vInt 20)] (fun _ => true)
      (fun _ => ⟨0, Nat.succ_pos 15⟩) 1 [("age", .vInt 20)] [] "k" .empty
      (.parsed [("k", [("age", .vInt 20)]), ("j", [("age", .vInt 7)])]) none
      { data := [], store := .empty } (by decide)).1),
   ((claim_C9 [("age", fun v => v == Value.vInt 20)] (fun _ => true)
      (fun _ => ⟨0, Nat.succ_pos 15⟩) 1 [("age", .vInt 20)] [] "k" .empty
      (.parsed [("k", [("age", .vInt 20)]), ("j", [("age", .vInt 7)])]) none
      { data := [], store := .empty } (by decide)).2.1)⟩

/-! ## Sort lemmas, claims C4 and C5 -/

theorem sublist_insertCmp {α : Type} (cmp : α → α → Int) (x : α) :
    ∀ l : List α, l.Sublist (insertCmp cmp x l) := by
  intro l
  induction l with
  | nil => exact List.nil_sublist _
  | cons y ys ih =>
    rw [insertCmp]
    by_cases h : cmp x y ≤ 0
    · rw [if_pos h]
      exact List.sublist_cons_self x (y :: ys)
    · rw [if_neg h]
      exact List.Sublist.cons₂ y ih

theorem insertCmp_perm {α : Type} (cmp : α → α → Int) (x : α) :
    ∀ l : List α, (insertCmp cmp x l).Perm (x :: l) := by
  intro l
  induction l with
  | nil => exact List.Perm.refl _
  | cons y ys ih =>
    rw [insertCmp]
    by_cases h : cmp x y ≤ 0
    · rw [if_pos h]
    · rw [if_neg h]
      exact (List.Perm.cons y ih).trans (List.Perm.swap x y ys)

theorem sortCmp_perm {α : Type} (cmp : α → α → Int) :
    ∀ l : List α, (sortCmp cmp l).Perm l := by
  intro l
  induction l with
  | nil => exact List.Perm.refl _
  | cons x xs ih =>
    rw [sortCmp]
    exact (insertCmp_perm cmp x (sortCmp cmp xs)).trans (List.Perm.cons x ih)

theorem pair_sublist_insertCmp {α : Type} {cmp : α → α → Int} {x y : α} :
    ∀ {l : List α}, y ∈ l → cmp x y ≤ 0 → [x, y].Sublist (insertCmp cmp x l) := by
  intro l
  induction l with
  | nil => intro hy; cases hy
  | cons w ws ih =>
    intro hy hxy
    rw [insertCmp]
    by_cases h : cmp x w ≤ 0
    · rw [if_pos h]
      exact List.Sublist.cons₂ x (List.singleton_sublist.mpr hy)
    · rw [if_neg h]
      rcases List.mem_cons.mp hy with rfl | hy'
      · exact absurd hxy h
      · exact List.Sublist.cons w (ih hy' hxy)

theorem sortCmp_stable_pair {α : Type} {cmp : α → α → Int} {x y : α} :
    ∀ {l : List α}, [x, y].Sublist l → cmp x y ≤ 0 →
      [x, y].Sublist (sortCmp cmp l) := by
  intro l
  induction l with
  | nil => intro hsub; cases hsub
  | cons z t ih =>
    intro hsub hxy
    rw [sortCmp]
    cases hsub with
    | cons _ h =>
      exact (ih h hxy).trans (sublist_insertCmp cmp z (sortCmp cmp t))
    | cons₂ _ h =>
      have hy : y ∈ sortCmp cmp t :=
        ((sortCmp_perm cmp t).mem_iff).mpr (List.singleton_sublist.mp h)
      exact pair_sublist_insertCmp hy hxy

theorem cmpDocs_append_of_eq {pre : SortOptions} {rest : SortOptions} {a b : Doc}
    (h : ∀ p ∈ pre, strictEq (docGet a p.1) (docGet b p.1) = true) :
    cmpDocs (pre ++ rest) a b = cmpDocs rest a b := by
  induction pre with
  | nil => rfl
  | cons p t ih =>
    rw [List.cons_append, cmpDocs, if_pos (h p (List.mem_cons_self p t))]
    exact ih (fun q hq => h q (List.mem_cons_of_mem p hq))

/-- Concrete documents of the spec's running example. -/
def annDoc : Doc := [("name", .vStr "Ann"), ("age", .vInt 20)]

def cidDoc : Doc := [("name", .vStr "Cid"), ("age", .vInt 20)]

def benDoc : Doc := [("name", .vStr "Ben"), ("age", .vInt 30)]

/-- The spec's running collection: Ann, Cid, Ben in insertion order. -/
def dbAges : DB :=
  { data := [("a", annDoc), ("c", cidDoc), ("b", benDoc)], store := .empty }

/-- **C5.** The query sort compares a pair of documents by iterating the sort
spec's fields in declared order, skipping fields with strictly-equal values
and deciding at the first unequal field per its direction; documents equal on
all sort fields keep their original relative order (stability); and sorting
`{age: desc}, {name: asc}` over Ann(20), Cid(20), Ben(30) yields
Ben(30), Ann(20), Cid(20). -/
theorem claim_C5 (pre rest : SortOptions) (f : String) (dir : SortDirection)
    (a b : Doc) (spec : SortOptions) (l : List Entry) (x y : Entry) :
    ((∀ p ∈ pre, strictEq (docGet a p.1) (docGet b p.1) = true) →
      strictEq (docGet a f) (docGet b f) = false →
      cmpDocs (pre ++ (f, dir) :: rest) a b =
        (match dir with
          | .asc => if jsLess (docGet a f) (docGet b f) == some true then -1 else 1
          | .desc => -(if jsLess (docGet a f) (docGet b f) == some true then -1 else 1)))
    ∧ ([x, y].Sublist l → cmpDocs spec x.2 y.2 = 0 →
        [x, y].Sublist (sortCmp (fun u v => cmpDocs spec u.2 v.2) l))
    ∧ query [] (some [("age", .desc), ("name", .asc)]) none dbAges
        = [("b", benDoc), ("a", annDoc), ("c", cidDoc)] := by
  refine ⟨?_, ?_, by decide⟩
  · intro hpre hneq
    rw [cmpDocs_append_of_eq hpre, cmpDocs, if_neg (by simp [hneq])]
  · intro hsub h0
    exact sortCmp_stable_pair hsub (by rw [h0])

/-- **C5 witness.** -/
theorem claim_C5_witness :
    cmpDocs [("age", .asc)] annDoc benDoc = -1
    ∧ [("a", annDoc), ("c", cidDoc)].Sublist
        (sortCmp (fun u v : Entry => cmpDocs [] u.2 v.2) [("a", annDoc), ("c", cidDoc)])
    ∧ query [] (some [("age", .desc), ("name", .asc)]) none dbAges
        = [("b", benDoc), ("a", annDoc), ("c", cidDoc)] :=
  ⟨(claim_C5 [] [] "age" .asc annDoc benDoc [] [] ("a", annDoc) ("c", cidDoc)).1
      (by decide) (by decide),
   (claim_C5 [] [] "age" .asc annDoc benDoc []
      [("a", annDoc), ("c", cidDoc)] ("a", annDoc) ("c", cidDoc)).2.1
      (List.Sublist.refl _) (by decide),
   (claim_C5 [] [] "age" .asc annDoc benDoc [] [] ("a", annDoc) ("c", cidDoc)).2.2⟩

/-- **C4 counterexample.** The claim says any out-of-range limit — zero,
negative, or larger than the result count — "simply bounds the returned slice
to at most the first `limit` matches".  A negative limit does not: JS
`slice(0, -1)` counts back from the end, so `query([], undefined, -1)` on a
three-document collection returns two documents, not at most `-1 ≤ 0`. -/
theorem claim_C4_counterexample :
    (query [] none (some (-1)) dbAges).length = 2
    ∧ ¬ ((query [] none (some (-1)) dbAges).length ≤ Int.toNat (-1)) := by
  decide

/-- **C4 amended.** `query` returns exactly the documents satisfying every
condition (an empty condition list matches everything): without a limit the
result is the filtered collection, reordered only by the sort; a limit never
errors: a nonnegative limit truncates to the first `limit` results (so the
result never exceeds the unlimited result), while a negative limit follows JS
`slice` semantics and counts back from the end of the result list. -/
theorem claim_C4 (conds : List FilterCondition) (sort : Option SortOptions)
    (limit : Int) (db : DB) :
    (query conds none none db
      = db.data.filter (fun e => conds.all (evaluateCondition e.2)))
    ∧ (∀ e, e ∈ query conds sort none db ↔
        e ∈ db.data ∧ conds.all (evaluateCondition e.2) = true)
    ∧ (query conds sort (some limit) db = sliceTo (query conds sort none db) limit)
    ∧ (0 ≤ limit →
        query conds sort (some limit) db = (query conds sort none db).take limit.toNat)
    ∧ (query conds sort (some limit) db).length ≤ (query conds sort none db).length := by
  have hperm : (query conds sort none db).Perm
      (db.data.filter (fun e => conds.all (evaluateCondition e.2))) := by
    cases sort with
    | none => exact List.Perm.refl _
    | some s => exact sortCmp_perm _ _
  have hslice : query conds sort (some limit) db
      = sliceTo (query conds sort none db) limit := by
    cases sort with
    | none => rfl
    | some s => rfl
  refine ⟨rfl, ?_, hslice, ?_, ?_⟩
  · intro e
    rw [hperm.mem_iff, List.mem_filter]
  · intro hl
    rw [hslice, sliceTo, if_neg (by omega)]
  · rw [hslice, sliceTo]
    split <;> exact (List.length_take ..).trans_le (min_le_right _ _)

/-- **C4 amended witness.** -/
theorem claim_C4_witness :
    query [] none (some 2) dbAges = (query [] none none dbAges).take 2 :=
  (claim_C4 [] none 2 dbAges).2.2.2.1 (by omega)

end MbextDB
